import Mathlib

/-!
Shallow embedding of `src/index.js` of aws-codecommit-selective-build-trigger.

The Lambda reacts to CodeCommit push events: it diffs commits, maps changed
paths to services (third path segment), dedups per service, and either deletes
the service's ECR repository (deleted Dockerfile) or ensures the repository and
dispatches a CodeBuild job.  External AWS calls are modelled by an explicit
`World` of oracles; JavaScript promise settlement is modelled by explicit
result values.  String splitting is implemented on `List Char` so that all
definitions kernel-evaluate.
-/

namespace CCTrigger

/-- Characters of a string split on a separator, JS `String.prototype.split`
semantics: the empty string yields `[[]]`. -/
def splitChars (sep : Char) : List Char → List (List Char)
  | [] => [[]]
  | c :: cs =>
    let rest := splitChars sep cs
    if c == sep then [] :: rest
    else
      match rest with
      | [] => [[c]]
      | r :: rs => (c :: r) :: rs

/-- JS `s.split(sep)` for a single-character separator. -/
def splitStr (sep : Char) (s : String) : List String :=
  (splitChars sep s.data).map String.mk

/-- Join a list of strings with a separator (JS `Array.prototype.join`). -/
def joinSep (sep : String) : List String → String
  | [] => ""
  | [x] => x
  | x :: xs => x ++ sep ++ joinSep sep xs

/-- Substring test on char lists, used to model JS `RegExp.prototype.test`
with a literal alternation pattern. -/
def containsSub (needle : List Char) : List Char → Bool
  | [] => needle.isEmpty
  | c :: cs => needle.isPrefixOf (c :: cs) || containsSub needle cs

/-- `strContains hay needle` holds when `needle` occurs in `hay`. -/
def strContains (hay needle : String) : Bool :=
  containsSub needle.data hay.data

/-- Result of Node `path.parse`: directory part, base name without extension,
and extension (dot included). -/
structure ParsedPath where
  dir : String
  name : String
  ext : String
deriving DecidableEq

/-- Split a base name into `(name, ext)` following Node `path.parse`: the
extension starts at the last dot, unless that dot is the first character. -/
def extSplit (base : String) : String × String :=
  let cs := base.data
  let suffixLen := (cs.reverse.takeWhile (fun c => !(c == '.'))).length
  if suffixLen == cs.length then (base, "")
  else
    let dotPos := cs.length - suffixLen - 1
    if dotPos == 0 then (base, "")
    else (String.mk (cs.take dotPos), String.mk (cs.drop dotPos))

/-- Node `path.parse` for repository-relative POSIX paths (no leading slash,
which is the shape CodeCommit returns). -/
def pathParse (p : String) : ParsedPath :=
  let segs := splitStr '/' p
  let base := segs.getLastD ""
  let dir := joinSep "/" segs.dropLast
  let (n, e) := extSplit base
  ⟨dir, n, e⟩

/-- `EXTENSIONS` constant from the source. -/
def EXTENSIONS : List String := [".js"]

/-- `FILENAMES` constant from the source. -/
def FILENAMES : List String := ["DockerFile", "Dockerfile"]

/-- `SERVICE_PREFIX` environment default from the source
(`SERVICE_PREFIX = 'customer-portal'`). -/
def SERVICE_PFX : String := "customer-portal"

/-- `CODE_BUILD_PROJECT` environment default from the source. -/
def CODE_BUILD_PROJECT : String := "wattry-ecr-poc-CodeBuild-Job"

/-- `SERVICES_PATH` environment default from the source. -/
def SERVICES_PATH : String := "backend/services"

/-- JS template-literal stringification of a possibly-undefined value:
`undefined` interpolates as the string "undefined". -/
def jsTemplateStr : Option String → String
  | some s => s
  | none => "undefined"

/-- The ECR repository name derived in the source as
`SERVICE_PREFIX-serviceName-branchName` (template literal). -/
def registryName (serviceName : Option String) (branchName : String) : String :=
  SERVICE_PFX ++ "-" ++ jsTemplateStr serviceName ++ "-" ++ branchName

/-- One entry of the CodeCommit `getDifferences` response, restricted to the
fields the source reads.  `beforeBlobPath = none` models a difference record
with no `beforeBlob` field (as produced for an added file), on which the
source's destructuring throws. -/
structure Difference where
  beforeBlobPath : Option String
  changeType : String
deriving DecidableEq

/-- The `dir.split(path.sep)` array computed in `updateErcImages` for a
changed path. -/
def pathArrayOf (servicePath : String) : List String :=
  splitStr '/' (pathParse servicePath).dir

/-- `serviceName = pathArray[2]` from `updateErcImages`: the third segment of
the changed path's directory, `none` when the path is too shallow
(JS `undefined`). -/
def serviceKeyOf (servicePath : String) : Option String :=
  (pathArrayOf servicePath).get? 2

/-- `serviceDirectory = pathArray.splice(0, 3).join(path.sep)` from
`updateErcImages`: the first three directory segments joined. -/
def serviceDirectoryOf (servicePath : String) : String :=
  joinSep "/" ((pathArrayOf servicePath).take 3)

/-- Whether a changed path satisfies the dispatch filter of `updateErcImages`:
`EXTENSIONS.includes(extension) || FILENAMES.includes(fileName)`.  The deleted
Dockerfile branch's filename condition implies this one. -/
def triggerEligible (servicePath : String) : Bool :=
  EXTENSIONS.contains (pathParse servicePath).ext
    || FILENAMES.contains (pathParse servicePath).name

/-- The action produced for one difference record by the body of
`differences.map` in `updateErcImages`. -/
inductive Action where
  | deleteRepo (branchName : String) (serviceName : Option String)
  | ensureAndBuild (serviceName : Option String) (serviceDirectory : String)
  | skip (serviceName : Option String) (fileName : String)
deriving DecidableEq

/-- Whether an action dispatches work (registry deletion or
ensure-then-build) rather than skipping. -/
def Action.isDispatch : Action → Bool
  | .skip _ _ => false
  | _ => true

/-- The service name an action concerns. -/
def Action.serviceOf : Action → Option String
  | .deleteRepo _ s => s
  | .ensureAndBuild s _ => s
  | .skip s _ => s

/-- The body of `differences.map` in `updateErcImages` for one difference:
either throws (difference without `beforeBlob`) or returns the updated
`hasQueuedBuild` list and the action taken. -/
def updateDiffStep (branchName : String) (hqb : List (Option String))
    (d : Difference) : Except String (List (Option String) × Action) :=
  match d.beforeBlobPath with
  | none => .error "TypeError: cannot destructure beforeBlob of undefined"
  | some servicePath =>
    let parsed := pathParse servicePath
    let serviceName := serviceKeyOf servicePath
    let serviceDirectory := serviceDirectoryOf servicePath
    let fileName := parsed.name
    let extension := parsed.ext
    let deleted := d.changeType == "D"
    if FILENAMES.contains fileName && deleted && !(hqb.contains serviceName) then
      .ok (hqb ++ [serviceName], .deleteRepo branchName serviceName)
    else if (EXTENSIONS.contains extension || FILENAMES.contains fileName)
        && !(hqb.contains serviceName) then
      .ok (hqb ++ [serviceName], .ensureAndBuild serviceName serviceDirectory)
    else
      .ok (hqb, .skip serviceName fileName)

/-- Sequential evaluation of `differences.map` in `updateErcImages`:
returns the final `hasQueuedBuild` list, the actions already produced, and
whether the map threw.  JS `Array.prototype.map` runs callbacks in order, so
actions produced before a throwing callback have already been initiated. -/
def runDiffsAux (branchName : String) :
    List (Option String) → List Action → List Difference →
    List (Option String) × List Action × Bool
  | hqb, acc, [] => (hqb, acc, false)
  | hqb, acc, d :: ds =>
    match updateDiffStep branchName hqb d with
    | .error _ => (hqb, acc, true)
    | .ok (hqb', a) => runDiffsAux branchName hqb' (acc ++ [a]) ds

/-- Outcome of building the action list in `updateErcImages`: either all
differences were mapped (`settled`, feeding `Promise.allSettled`) or the map
threw after initiating the listed actions (`thrown`). -/
inductive RunResult where
  | settled (actions : List Action)
  | thrown (dispatched : List Action)
deriving DecidableEq

/-- The action list of `updateErcImages` on a difference list: a fresh run
starts from an empty `hasQueuedBuild` membership list. -/
def updateErcImagesActions (branchName : String) (diffs : List Difference) :
    RunResult :=
  match runDiffsAux branchName [] [] diffs with
  | (_, acc, false) => .settled acc
  | (_, acc, true) => .thrown acc

/-- Services that had work dispatched in a run (order of first appearance). -/
def dispatchedServices (r : RunResult) : List (Option String) :=
  match r with
  | .settled acts => (acts.filter Action.isDispatch).map Action.serviceOf
  | .thrown acts => (acts.filter Action.isDispatch).map Action.serviceOf

/-- An ECR repository reference, restricted to the fields the source reads. -/
structure Repository where
  repositoryName : String
  repositoryUri : String
deriving DecidableEq

/-- Failure mode of `ecr.describeRepositories`, distinguishing the
`RepositoryNotFoundException` name the source tests for. -/
inductive EcrError where
  | notFound
  | other (msg : String)
deriving DecidableEq

/-- A JS value that is either a string or `undefined`, used where the source
passes possibly-undefined values verbatim. -/
inductive JsVal where
  | str (s : String)
  | undefVal
deriving DecidableEq

/-- JS truthy coercion of a possibly-absent string: `undefined` and `""` are
falsy. -/
def jsTruthy : Option String → Bool
  | none => false
  | some s => !(s == "")

/-- The value bound to `commitHash` in the handler: either the string from the
event, or — because `getLastCommitID(...)` is not awaited — the promise object
returned by the branch-head lookup. -/
inductive CommitSpec where
  | strVal (s : String)
  | promiseVal (repoName branchName : String)
deriving DecidableEq

/-- One environment variable of a `startBuild` request. -/
structure EnvVar where
  name : String
  value : JsVal
deriving DecidableEq

/-- The `buildOptions` object assembled by `buildImage`, restricted to the
fields the claims inspect. -/
structure BuildOptions where
  projectName : String
  sourceVersion : CommitSpec
  sourceLocationOverride : String
  environmentVariablesOverride : List EnvVar
deriving DecidableEq

/-- Oracles for the external AWS collaborators, indexed by the request data
the source sends.  Promise rejection is an `Except.error`; `allRepoNames` is
the `ecr.describeRepositories()` listing used by `deleteEcrRepository`. -/
structure World where
  describeRepo : String → Except EcrError Repository
  createRepo : String → Except String Repository
  startBuild : String → Except String Unit
  allRepoNames : List String
  getCommitLog : CommitSpec → Except String (List String)
  getDifferences : CommitSpec → Option String → Except String (List Difference)
  getFolder : Except String (List (String × String))

/-- `checkEcrRepository` from the source: describe by name; on
`RepositoryNotFoundException` create; every other error (and a create
failure) is caught, logged and the function returns `undefined` (`none`). -/
def checkEcrRepository (w : World) (repositoryName : String) :
    Option Repository :=
  match w.describeRepo repositoryName with
  | .ok r => some r
  | .error .notFound =>
    match w.createRepo repositoryName with
    | .ok r => some r
    | .error _ => none
  | .error (.other _) => none

/-- The protected-branch test of `deleteEcrRepository`:
`/master|main|dev|prod/.test(branchName)`, a substring test on the requested
branch name. -/
def isProtectedBranch (branchName : String) : Bool :=
  strContains branchName "master" || strContains branchName "main"
    || strContains branchName "dev" || strContains branchName "prod"

/-- Match of `new RegExp(a ++ "." ++ b ++ "." ++ c)` anchored on both sides,
for metacharacter-free `a`, `b`, `c`: the name is `a`, any one character,
`b`, any one character, `c`. -/
def matchesExact (a b c : List Char) (nm : List Char) : Bool :=
  nm.length == a.length + 1 + b.length + 1 + c.length
    && a.isPrefixOf nm
    && b.isPrefixOf (nm.drop (a.length + 1))
    && c.isSuffixOf nm

/-- Match of the deletion regex of `deleteEcrRepository` against a repository
name, for metacharacter-free service and branch names (the counterexamples
below use only such inputs): with a service name the pattern is
`^PREFIX.service.branch$`, without one it is `^PREFIX.*.branch$`, where each
`.` matches any single character. -/
def matchesDeleteRegex (serviceName : Option String) (branchName : String)
    (repoName : String) : Bool :=
  match serviceName with
  | some s => matchesExact SERVICE_PFX.data s.data branchName.data repoName.data
  | none =>
    SERVICE_PFX.data.isPrefixOf repoName.data
      && branchName.data.isSuffixOf repoName.data
      && decide (SERVICE_PFX.length + branchName.length + 1 ≤ repoName.length)

/-- `deleteEcrRepository` from the source: lists all repositories and maps
each to `deleted` (when the requested branch is not protected and the regex
matches) or `skipped`, then settles all.  The `ecr.deleteRepository` call is
modelled as succeeding; the claims concern the delete/skip decision. -/
def deleteEcrRepository (w : World) (branchName : String)
    (serviceName : Option String) : List (String × Bool) :=
  w.allRepoNames.map fun nm =>
    if !(isProtectedBranch branchName)
        && matchesDeleteRegex serviceName branchName nm
    then (nm, true) else (nm, false)

/-- The per-invocation data the handler closes over when calling
`buildImage`. -/
structure BuildCtx where
  awsRegion : String
  accountId : Option String
  commitHash : CommitSpec
  gitRepoName : String
  branchName : String

/-- Lift a possibly-undefined string to a `JsVal`. -/
def jsValOfOpt : Option String → JsVal
  | some s => .str s
  | none => .undefVal

/-- The `buildOptions` object assembled by `buildImage` (pure parameter
assembly). -/
def mkBuildOptions (ctx : BuildCtx) (repo : Repository)
    (serviceName : Option String) (serviceDirectory : String) : BuildOptions :=
  { projectName := CODE_BUILD_PROJECT
    sourceVersion := ctx.commitHash
    sourceLocationOverride :=
      "https://git-codecommit." ++ ctx.awsRegion ++ ".amazonaws.com/v1/repos/"
        ++ ctx.gitRepoName
    environmentVariablesOverride :=
      [⟨"AWS_DEFAULT_REGION", .str ctx.awsRegion⟩,
       ⟨"ECR_REPO", .str repo.repositoryName⟩,
       ⟨"ECR_REPO_URI", .str repo.repositoryUri⟩,
       ⟨"AWS_ACCOUNT_ID", jsValOfOpt ctx.accountId⟩,
       ⟨"SERVICE_DIR", .str serviceDirectory⟩,
       ⟨"SERVICE_NAME", jsValOfOpt serviceName⟩,
       ⟨"BRANCH_NAME", .str ctx.branchName⟩] }

/-- `buildImage` from the source: destructuring the repository argument
throws on `undefined`; otherwise the options are assembled and
`codebuild.startBuild` is called.  The successful value carries the submitted
options. -/
def buildImage (w : World) (ctx : BuildCtx) (ecrRepository : Option Repository)
    (serviceName : Option String) (serviceDirectory : String) :
    Except String BuildOptions :=
  match ecrRepository with
  | none => .error "TypeError: cannot destructure repositoryName of undefined"
  | some repo =>
    match w.startBuild repo.repositoryName with
    | .ok _ => .ok (mkBuildOptions ctx repo serviceName serviceDirectory)
    | .error e => .error e

/-- Settlement of one element of the `builds` array that `updateErcImages`
passes to `Promise.allSettled`. -/
inductive Settlement where
  | fulfilledBuild (opts : BuildOptions)
  | fulfilledSkip (serviceName : Option String) (fileName : String)
  | fulfilledDeletion (report : List (String × Bool))
  | rejected (reason : String)
deriving DecidableEq

/-- Settle one action: a skip record fulfills with itself, a deletion
fulfills with the deletion report, and an ensure-then-build chain is
`checkEcrRepository(...).then(repository => build(repository, ...))`. -/
def settleAction (w : World) (ctx : BuildCtx) : Action → Settlement
  | .skip s f => .fulfilledSkip s f
  | .deleteRepo b s => .fulfilledDeletion (deleteEcrRepository w b s)
  | .ensureAndBuild s dir =>
    match buildImage w ctx (checkEcrRepository w (registryName s ctx.branchName))
        s dir with
    | .ok opts => .fulfilledBuild opts
    | .error e => .rejected e

/-- The settlement phase of `updateErcImages` on an already-fetched
difference list: if the synchronous map threw, the returned promise rejects
(no settlement report); otherwise `Promise.allSettled` collects one outcome
per difference. -/
def updateErcImages (w : World) (ctx : BuildCtx) (diffs : List Difference) :
    Except String (List Settlement) :=
  match updateErcImagesActions ctx.branchName diffs with
  | .settled acts => .ok (acts.map (settleAction w ctx))
  | .thrown _ => .error "TypeError: cannot destructure beforeBlob of undefined"

/-- `updateErcImages` including its own awaited source lookups: the commit
log (for the parent commit) and the diff, both keyed by the handler's
`commitHash` value. -/
def updateErcImagesFull (w : World) (ctx : BuildCtx) :
    Except String (List Settlement) :=
  match w.getCommitLog ctx.commitHash with
  | .error e => .error e
  | .ok parents =>
    match w.getDifferences ctx.commitHash parents.head? with
    | .error e => .error e
    | .ok diffs => updateErcImages w ctx diffs

deriving instance DecidableEq for Except

/-- Eventual outcome of one element of the array `createServiceRepositories`
returns: each element is `createEcrRepository(name).then(build).catch(log)`,
so a create failure is consumed by the catch, and a successful create invokes
the build closure (fire-and-forget). -/
inductive CreateOutcome where
  | created (buildCall : Except String BuildOptions)
  | createFailed (msg : String)
deriving DecidableEq

/-- `createServiceRepositories` from the source: lists the service folders at
the commit, then per service creates `SERVICE_PREFIX-service-branch` and on
success invokes the build closure. -/
def createServiceRepositories (w : World) (ctx : BuildCtx) :
    Except String (List CreateOutcome) :=
  match w.getFolder with
  | .error e => .error e
  | .ok subFolders =>
    .ok (subFolders.map fun sf =>
      match w.createRepo (SERVICE_PFX ++ "-" ++ sf.1 ++ "-" ++ ctx.branchName) with
      | .ok repo => .created (buildImage w ctx (some repo) (some sf.1) sf.2)
      | .error e => .createFailed e)

/-- The reference block of an inbound CodeCommit event record. -/
structure CCReference where
  commit : Option String
  ref : String
  deleted : Bool
  created : Bool
deriving DecidableEq

/-- One inbound event record. -/
structure CCRecord where
  awsRegion : String
  references : List CCReference
  eventSourceARN : String
deriving DecidableEq

/-- The inbound event: a `Records` array. -/
structure Event where
  records : List CCRecord
deriving DecidableEq

/-- Node `path.basename` for the branch ref strings the handler sees. -/
def pathBasename (p : String) : String :=
  (splitStr '/' p).getLastD ""

/-- The values the handler's destructuring computes from the event. -/
structure ParsedEvent where
  awsRegion : String
  gitRepoName : String
  accountId : Option String
  branchName : String
  commitHash : CommitSpec
  deleted : Bool
  created : Bool
deriving DecidableEq

/-- The synchronous destructuring phase of the handler: throws on an event
with no record or no reference; otherwise derives repo name and account id
from the source ARN, the branch from the ref, and `commitHash` as the event's
commit when truthy, else the unawaited `getLastCommitID` promise. -/
def parseEvent (e : Event) : Except String ParsedEvent :=
  match e.records with
  | [] => .error "TypeError: cannot destructure Records"
  | r :: _ =>
    match r.references with
    | [] => .error "TypeError: cannot destructure references"
    | rf :: _ =>
      let arnParts := splitStr ':' r.eventSourceARN
      let gitRepoName := arnParts.getLastD ""
      let accountId := arnParts.get? 4
      let branchName := pathBasename rf.ref
      let commitHash :=
        if jsTruthy rf.commit then .strVal (rf.commit.getD "")
        else CommitSpec.promiseVal gitRepoName branchName
      .ok ⟨r.awsRegion, gitRepoName, accountId, branchName, commitHash,
           rf.deleted, rf.created⟩

/-- The handler's `BuildCtx` for a parsed event. -/
def handlerCtx (p : ParsedEvent) : BuildCtx :=
  ⟨p.awsRegion, p.accountId, p.commitHash, p.gitRepoName, p.branchName⟩

/-- Observable result of one handler invocation.  `resolvedUndefined` is the
handler's catch block swallowing a synchronous error and resolving with no
value (the invocation reports success); the three routed results are returned
promises whose rejection, being outside the try's synchronous extent, does
surface as the invocation's failure. -/
inductive HandlerResult where
  | resolvedUndefined
  | deletion (report : List (String × Bool))
  | creation (r : Except String (List CreateOutcome))
  | update (r : Except String (List Settlement))
deriving DecidableEq

/-- The Lambda `handler` from the source: parse, then route on the
reference's `deleted` / `created` flags. -/
def handler (w : World) (e : Event) : HandlerResult :=
  match parseEvent e with
  | .error _ => .resolvedUndefined
  | .ok p =>
    if p.deleted then .deletion (deleteEcrRepository w p.branchName none)
    else if p.created then .creation (createServiceRepositories w (handlerCtx p))
    else .update (updateErcImagesFull w (handlerCtx p))

/-- Look up an environment variable of a build-options object by name. -/
def envValue (opts : BuildOptions) (nm : String) : Option JsVal :=
  (opts.environmentVariablesOverride.find? (fun v => v.name == nm)).map EnvVar.value

/-- A difference record maps to service `s` and passes the dispatch filter. -/
def eligKey (s : Option String) (d : Difference) : Prop :=
  ∃ p, d.beforeBlobPath = some p ∧ serviceKeyOf p = s ∧ triggerEligible p = true

/-- A difference record maps to service `s` (its `beforeBlob` is present). -/
def sameService (s : Option String) (d : Difference) : Prop :=
  ∃ p, d.beforeBlobPath = some p ∧ serviceKeyOf p = s

/-- Modelled from the amended C6 claim's words: on a successful lookup return
the existing reference; on not-found create and return the new reference when
the create succeeds; on any other lookup error, or a failed create after
not-found, return no reference (the error is logged and swallowed, never
propagated). -/
def ensureAmended (describeResult : Except EcrError Repository)
    (createResult : Except String Repository) : Option Repository :=
  match describeResult with
  | .ok r => some r
  | .error .notFound => createResult.toOption
  | .error (.other _) => none

/-- A world whose every collaborator call fails benignly; used where only the
pure pipeline structure matters. -/
def wTrivial : World :=
  { describeRepo := fun _ => .error .notFound
    createRepo := fun _ => .error "unavailable"
    startBuild := fun _ => .error "unavailable"
    allRepoNames := []
    getCommitLog := fun _ => .error "unavailable"
    getDifferences := fun _ _ => .error "unavailable"
    getFolder := .error "unavailable" }

/-- A world holding exactly the registry of service `api` on branch `main`. -/
def wProtMain : World :=
  { wTrivial with allRepoNames := ["customer-portal-api-main"] }

/-- Concrete repository for service `web` on branch `feat`. -/
def repoWeb : Repository := ⟨"customer-portal-web-feat", "uri-web"⟩

/-- A world where only service `web`'s registry on branch `feat` can be
described and built: everything about other services fails. -/
def wWebOnly : World :=
  { wTrivial with
    describeRepo := fun nm =>
      if nm == "customer-portal-web-feat" then .ok repoWeb
      else .error (.other "DescribeFailed")
    createRepo := fun _ => .error "CreateFailed"
    startBuild := fun nm =>
      if nm == "customer-portal-web-feat" then .ok () else .error "BuildFailed" }

/-- A world whose registry lookup always fails for a reason other than
not-found. -/
def wLookupFail : World :=
  { wTrivial with describeRepo := fun _ => .error (.other "AccessDenied") }

/-- A world whose commit-log lookup always fails (branch or commit cannot be
resolved). -/
def wLogFail : World :=
  { wTrivial with getCommitLog := fun _ => .error "SourceUnavailable" }

/-- Concrete repositories for the branch-created scenario of C8. -/
def repoApi8 : Repository := ⟨"customer-portal-api-feat", "uri-api-8"⟩

/-- Second concrete repository for the branch-created scenario of C8. -/
def repoWeb8 : Repository := ⟨"customer-portal-web-feat", "uri-web-8"⟩

/-- A world for the C8 scenario: services `api` and `web` exist under the
services root, and both registry creations and build submissions succeed. -/
def wCreate8 : World :=
  { wTrivial with
    getFolder := .ok [("api", "backend/services/api"), ("web", "backend/services/web")]
    createRepo := fun nm =>
      if nm == "customer-portal-api-feat" then .ok repoApi8
      else if nm == "customer-portal-web-feat" then .ok repoWeb8
      else .error "CreateFailed"
    startBuild := fun _ => .ok () }

/-- A world answering the commit-log and diff lookups only when the
after-commit specifier equals `key`, and failing otherwise: used to observe
which value the handler passes as the specifier. -/
def probeWorld (key : CommitSpec) : World :=
  { wTrivial with
    getCommitLog := fun c => if c = key then .ok [] else .error "wrong-after-commit-specifier"
    getDifferences := fun c _ => if c = key then .ok [] else .error "wrong-after-commit-specifier" }

/-- An inbound event with no record at all (malformed payload). -/
def emptyEvent : Event := ⟨[]⟩

/-- A well-formed branch-update event (commit id present, neither created nor
deleted). -/
def updEvent : Event :=
  ⟨[⟨"us-east-1", [⟨some "c0ffee", "refs/heads/feat", false, false⟩],
     "arn:aws:codecommit:us-east-1:123456789012:my-repo"⟩]⟩

/-- A branch-update event whose reference block lacks a commit id. -/
def updEventNoCommit : Event :=
  ⟨[⟨"us-east-1", [⟨none, "refs/heads/feat", false, false⟩],
     "arn:aws:codecommit:us-east-1:123456789012:my-repo"⟩]⟩

/-- A deleted Dockerfile change under service `api`. -/
def dDockerDel : Difference := ⟨some "backend/services/api/Dockerfile", "D"⟩

/-- A modified JS change under service `api`. -/
def dApiJs : Difference := ⟨some "backend/services/api/index.js", "M"⟩

/-- A modified JS change under service `web`. -/
def dWebJs : Difference := ⟨some "backend/services/web/index.js", "M"⟩

/-- A modified top-level Dockerfile (path shallower than the three-segment
convention). -/
def dShallowDocker : Difference := ⟨some "Dockerfile", "M"⟩

/-- A shallow change whose filename and extension are outside the
allow-lists. -/
def dShallowReadme : Difference := ⟨some "README.md", "M"⟩

/-- A difference record without a `beforeBlob` field, as CodeCommit produces
for an added file. -/
def dAdded : Difference := ⟨none, "A"⟩

/-- The build context of the concrete update scenarios (branch `feat`). -/
def ctxFeat : BuildCtx :=
  ⟨"us-east-1", some "123456789012", .strVal "c0ffee", "my-repo", "feat"⟩

/-- A modified (not deleted) Dockerfile change under service `api`. -/
def dDockerMod : Difference := ⟨some "backend/services/api/Dockerfile", "M"⟩

/-- A second modified JS change under service `api`. -/
def dApiUtilJs : Difference := ⟨some "backend/services/api/util.js", "M"⟩

example : pathParse "backend/services/api/index.js" =
    ⟨"backend/services/api", "index", ".js"⟩ := by decide

example : serviceKeyOf "backend/services/api/src/deep/file.js" = some "api" := by
  decide

example : serviceKeyOf "Dockerfile" = none := by decide

example : serviceDirectoryOf "backend/services/api/index.js" =
    "backend/services/api" := by decide

example :
    updateErcImagesActions "feat"
      [⟨some "backend/services/api/Dockerfile", "D"⟩,
       ⟨some "backend/services/api/index.js", "M"⟩] =
    .settled [.deleteRepo "feat" (some "api"), .skip (some "api") "index"] := by
  decide

/-! ## Structural lemmas about the update pipeline -/

/-- `updateDiffStep` on a present `beforeBlob`, with the let-bindings of the
source resolved. -/
theorem updateDiffStep_some (b : String) (hqb : List (Option String))
    (d : Difference) (p : String) (hp : d.beforeBlobPath = some p) :
    updateDiffStep b hqb d =
      (if FILENAMES.contains (pathParse p).name && (d.changeType == "D")
          && !(hqb.contains (serviceKeyOf p)) then
        .ok (hqb ++ [serviceKeyOf p], .deleteRepo b (serviceKeyOf p))
      else if (EXTENSIONS.contains (pathParse p).ext
            || FILENAMES.contains (pathParse p).name)
          && !(hqb.contains (serviceKeyOf p)) then
        .ok (hqb ++ [serviceKeyOf p],
             .ensureAndBuild (serviceKeyOf p) (serviceDirectoryOf p))
      else
        .ok (hqb, .skip (serviceKeyOf p) (pathParse p).name)) := by
  simp only [updateDiffStep, hp]

/-- A difference whose `beforeBlob` is present never throws. -/
theorem updateDiffStep_some_ok (b : String) (hqb : List (Option String))
    (d : Difference) (p : String) (hp : d.beforeBlobPath = some p) :
    ∃ hqb' a, updateDiffStep b hqb d = .ok (hqb', a) := by
  rw [updateDiffStep_some b hqb d p hp]
  split
  · exact ⟨_, _, rfl⟩
  split
  · exact ⟨_, _, rfl⟩
  · exact ⟨_, _, rfl⟩

/-- When the changed path's service is already in `hasQueuedBuild`, the step
skips and leaves the membership list unchanged. -/
theorem updateDiffStep_mem (b : String) (hqb : List (Option String))
    (d : Difference) (p : String) (hp : d.beforeBlobPath = some p)
    (hmem : hqb.contains (serviceKeyOf p) = true) :
    updateDiffStep b hqb d = .ok (hqb, .skip (serviceKeyOf p) (pathParse p).name) := by
  rw [updateDiffStep_some b hqb d p hp]
  have hmem' : serviceKeyOf p ∈ hqb := List.elem_iff.mp hmem
  simp [hmem']

/-- When the changed path passes the dispatch filter and its service is not
yet queued, the step dispatches (deletion or ensure-then-build) for that
service and appends it to the membership list. -/
theorem updateDiffStep_new_elig (b : String) (hqb : List (Option String))
    (d : Difference) (p : String) (hp : d.beforeBlobPath = some p)
    (helig : triggerEligible p = true)
    (hmem : hqb.contains (serviceKeyOf p) = false) :
    ∃ a, updateDiffStep b hqb d = .ok (hqb ++ [serviceKeyOf p], a) ∧
      a.isDispatch = true ∧ a.serviceOf = serviceKeyOf p := by
  rw [updateDiffStep_some b hqb d p hp]
  by_cases h1 : (FILENAMES.contains (pathParse p).name && (d.changeType == "D")
      && !(hqb.contains (serviceKeyOf p))) = true
  · exact ⟨.deleteRepo b (serviceKeyOf p), by rw [if_pos h1], rfl, rfl⟩
  · have h2 : ((EXTENSIONS.contains (pathParse p).ext
        || FILENAMES.contains (pathParse p).name)
        && !(hqb.contains (serviceKeyOf p))) = true := by
      simp only [triggerEligible] at helig
      rw [helig, hmem]
      rfl
    exact ⟨.ensureAndBuild (serviceKeyOf p) (serviceDirectoryOf p),
      by rw [if_neg h1, if_pos h2], rfl, rfl⟩

/-- When the changed path fails the dispatch filter, the step skips and
leaves the membership list unchanged. -/
theorem updateDiffStep_inelig (b : String) (hqb : List (Option String))
    (d : Difference) (p : String) (hp : d.beforeBlobPath = some p)
    (helig : triggerEligible p = false) :
    updateDiffStep b hqb d = .ok (hqb, .skip (serviceKeyOf p) (pathParse p).name) := by
  rw [updateDiffStep_some b hqb d p hp]
  simp only [triggerEligible, Bool.or_eq_false_iff] at helig
  rw [helig.1, helig.2]
  simp

/-- Splitting the sequential map over an appended difference list. -/
theorem runDiffsAux_append (b : String) (hqb : List (Option String))
    (acc : List Action) (l1 l2 : List Difference) :
    runDiffsAux b hqb acc (l1 ++ l2) =
      (match runDiffsAux b hqb acc l1 with
      | (hqb1, acc1, false) => runDiffsAux b hqb1 acc1 l2
      | (hqb1, acc1, true) => (hqb1, acc1, true)) := by
  induction l1 generalizing hqb acc with
  | nil => simp [runDiffsAux]
  | cons d ds ih =>
    simp only [List.cons_append, runDiffsAux]
    cases h : updateDiffStep b hqb d with
    | error e => rfl
    | ok r => exact ih r.1 (acc ++ [r.2])

/-- On a difference list whose records all carry a `beforeBlob`, the map
never throws and produces one action per difference. -/
theorem runDiffsAux_sound (b : String) (ds : List Difference)
    (h : ∀ d ∈ ds, (d.beforeBlobPath).isSome) :
    ∀ hqb acc, ∃ hqb' acts,
      runDiffsAux b hqb acc ds = (hqb', acc ++ acts, false) ∧
      acts.length = ds.length := by
  induction ds with
  | nil => exact fun hqb acc => ⟨hqb, [], by simp [runDiffsAux], rfl⟩
  | cons d ds ih =>
    intro hqb acc
    obtain ⟨p, hp⟩ := Option.isSome_iff_exists.mp (h d (List.mem_cons_self d ds))
    obtain ⟨hqb1, a, hstep⟩ := updateDiffStep_some_ok b hqb d p hp
    obtain ⟨hqb', acts, heq, hlen⟩ :=
      ih (fun d' hd' => h d' (List.mem_cons_of_mem d hd')) hqb1 (acc ++ [a])
    refine ⟨hqb', a :: acts, ?_, by simp [hlen]⟩
    simp only [runDiffsAux, hstep, heq, List.append_assoc, List.singleton_append]

/-- Once a service is in `hasQueuedBuild`, every further change for that
service is skipped: the run settles with only skip actions added. -/
theorem runDiffsAux_all_mem_skip (b : String) (s : Option String)
    (ds : List Difference) (h : ∀ d ∈ ds, sameService s d) :
    ∀ hqb acc, hqb.contains s = true →
    ∃ acts, runDiffsAux b hqb acc ds = (hqb, acc ++ acts, false) ∧
      acts.length = ds.length ∧ ∀ a ∈ acts, a.isDispatch = false := by
  induction ds with
  | nil =>
    exact fun hqb acc _ => ⟨[], by simp [runDiffsAux], rfl, by simp⟩
  | cons d ds ih =>
    intro hqb acc hmem
    obtain ⟨p, hp, hkey⟩ := h d (List.mem_cons_self d ds)
    have hstep := updateDiffStep_mem b hqb d p hp (by rw [hkey]; exact hmem)
    obtain ⟨acts, heq, hlen, hskip⟩ :=
      ih (fun d' hd' => h d' (List.mem_cons_of_mem d hd')) hqb
        (acc ++ [.skip (serviceKeyOf p) (pathParse p).name]) hmem
    refine ⟨.skip (serviceKeyOf p) (pathParse p).name :: acts, ?_, by simp [hlen], ?_⟩
    · simp only [runDiffsAux, hstep, heq, List.append_assoc, List.singleton_append]
    · intro a ha
      rcases List.mem_cons.mp ha with rfl | ha'
      · rfl
      · exact hskip a ha'

/-- Bridge between the Bool `contains` test of the source and list
membership. -/
theorem contains_eq_false_iff (l : List (Option String)) (s : Option String) :
    l.contains s = false ↔ s ∉ l := by
  constructor
  · intro h hm
    have h2 : l.contains s = true := List.elem_iff.mpr hm
    rw [h] at h2
    exact Bool.noConfusion h2
  · intro hm
    cases hc : l.contains s
    · rfl
    · exact absurd (List.elem_iff.mp hc) hm

/-- Membership in the dispatched-service list produced by the sequential map:
a service is dispatched exactly when it was already dispatched in the
accumulator, or it is not yet queued and some remaining difference is a
trigger-eligible change of that service. -/
theorem mem_dispatched_run (b : String) (s : Option String) :
    ∀ (ds : List Difference) (hqb : List (Option String)) (acc : List Action),
    (∀ d ∈ ds, (d.beforeBlobPath).isSome) →
    (s ∈ (((runDiffsAux b hqb acc ds).2.1).filter Action.isDispatch).map Action.serviceOf ↔
      s ∈ (acc.filter Action.isDispatch).map Action.serviceOf ∨
        (s ∉ hqb ∧ ∃ d ∈ ds, eligKey s d)) := by
  intro ds
  induction ds with
  | nil =>
    intro hqb acc _
    simp [runDiffsAux]
  | cons d ds ih =>
    intro hqb acc hbb
    have hbb' : ∀ d' ∈ ds, (d'.beforeBlobPath).isSome :=
      fun d' hd' => hbb d' (List.mem_cons_of_mem d hd')
    obtain ⟨p, hp⟩ := Option.isSome_iff_exists.mp (hbb d (List.mem_cons_self d ds))
    have hkey : eligKey s d ↔ (triggerEligible p = true ∧ serviceKeyOf p = s) := by
      constructor
      · rintro ⟨p', hp', hk', he'⟩
        rw [hp] at hp'
        injection hp' with hpp
        subst hpp
        exact ⟨he', hk'⟩
      · rintro ⟨he', hk'⟩
        exact ⟨p, hp, hk', he'⟩
    by_cases helig : triggerEligible p = true
    · by_cases hmem : serviceKeyOf p ∈ hqb
      · have hstep := updateDiffStep_mem b hqb d p hp (List.elem_iff.mpr hmem)
        simp only [runDiffsAux, hstep]
        refine Iff.trans
          (ih hqb (acc ++ [Action.skip (serviceKeyOf p) (pathParse p).name]) hbb') ?_
        have hfilter : ((acc ++ [Action.skip (serviceKeyOf p) (pathParse p).name]).filter
            Action.isDispatch) = acc.filter Action.isDispatch := by
          simp [List.filter_append, Action.isDispatch]
        rw [hfilter]
        constructor
        · rintro (hm | ⟨hs, d', hd', hk'⟩)
          · exact Or.inl hm
          · exact Or.inr ⟨hs, d', List.mem_cons_of_mem d hd', hk'⟩
        · rintro (hm | ⟨hs, d', hd', hk'⟩)
          · exact Or.inl hm
          · rcases List.mem_cons.mp hd' with rfl | hd''
            · rcases hkey.mp hk' with ⟨_, hks⟩
              exact absurd (hks ▸ hmem) hs
            · exact Or.inr ⟨hs, d', hd'', hk'⟩
      · have hmemb : hqb.contains (serviceKeyOf p) = false :=
          (contains_eq_false_iff hqb (serviceKeyOf p)).mpr hmem
        obtain ⟨a, hstep, hdisp, hserv⟩ := updateDiffStep_new_elig b hqb d p hp helig hmemb
        simp only [runDiffsAux, hstep]
        refine Iff.trans (ih (hqb ++ [serviceKeyOf p]) (acc ++ [a]) hbb') ?_
        have hfilter : (((acc ++ [a]).filter Action.isDispatch).map Action.serviceOf) =
            (acc.filter Action.isDispatch).map Action.serviceOf ++ [serviceKeyOf p] := by
          simp [List.filter_append, hdisp, hserv]
        rw [hfilter]
        simp only [List.mem_append, List.mem_singleton]
        constructor
        · rintro ((hm | hs) | ⟨hnm, d', hd', hk'⟩)
          · exact Or.inl hm
          · exact Or.inr ⟨fun h => hmem (hs ▸ h), d, List.mem_cons_self d ds,
              hkey.mpr ⟨helig, hs.symm⟩⟩
          · have hs1 : s ∉ hqb := fun h => hnm (Or.inl h)
            exact Or.inr ⟨hs1, d', List.mem_cons_of_mem d hd', hk'⟩
        · rintro (hm | ⟨hs, d', hd', hk'⟩)
          · exact Or.inl (Or.inl hm)
          · rcases List.mem_cons.mp hd' with rfl | hd''
            · rcases hkey.mp hk' with ⟨_, hks⟩
              exact Or.inl (Or.inr hks.symm)
            · by_cases hsk : s = serviceKeyOf p
              · exact Or.inl (Or.inr hsk)
              · refine Or.inr ⟨?_, d', hd'', hk'⟩
                rintro (h1 | h2)
                · exact hs h1
                · exact hsk h2
    · have hF : triggerEligible p = false := Bool.eq_false_iff.mpr helig
      have hstep := updateDiffStep_inelig b hqb d p hp hF
      simp only [runDiffsAux, hstep]
      refine Iff.trans
        (ih hqb (acc ++ [Action.skip (serviceKeyOf p) (pathParse p).name]) hbb') ?_
      have hfilter : ((acc ++ [Action.skip (serviceKeyOf p) (pathParse p).name]).filter
          Action.isDispatch) = acc.filter Action.isDispatch := by
        simp [List.filter_append, Action.isDispatch]
      rw [hfilter]
      constructor
      · rintro (hm | ⟨hs, d', hd', hk'⟩)
        · exact Or.inl hm
        · exact Or.inr ⟨hs, d', List.mem_cons_of_mem d hd', hk'⟩
      · rintro (hm | ⟨hs, d', hd', hk'⟩)
        · exact Or.inl hm
        · rcases List.mem_cons.mp hd' with rfl | hd''
          · exact absurd (hkey.mp hk').1 helig
          · exact Or.inr ⟨hs, d', hd'', hk'⟩

/-- The dispatched services of a run, read off the sequential map. -/
theorem dispatchedServices_eq (b : String) (diffs : List Difference) :
    dispatchedServices (updateErcImagesActions b diffs) =
      (((runDiffsAux b [] [] diffs).2.1).filter Action.isDispatch).map Action.serviceOf := by
  unfold updateErcImagesActions dispatchedServices
  rcases hr : runDiffsAux b [] [] diffs with ⟨hqb1, acc1, bb⟩
  cases bb
  · rfl
  · rfl

/-- A service is dispatched in an update run exactly when the diff holds at
least one trigger-eligible change mapping to it. -/
theorem mem_dispatchedServices (b : String) (s : Option String)
    (diffs : List Difference) (h : ∀ d ∈ diffs, (d.beforeBlobPath).isSome) :
    s ∈ dispatchedServices (updateErcImagesActions b diffs) ↔
      ∃ d ∈ diffs, eligKey s d := by
  rw [dispatchedServices_eq, mem_dispatched_run b s diffs [] [] h]
  simp

/-! ## Claim theorems -/

/-- C1: in an update run, when every one of the N differences maps to the same
service `s` and passes the dispatch filter, exactly one action (registry
deletion or ensure-then-build) is dispatched for `s` and the other N−1
changes are skipped; `updateErcImagesActions` starts each run from an empty
membership list. -/
theorem C1_dedup_dispatches_once (b : String) (s : Option String)
    (d0 : Difference) (ds : List Difference)
    (h : ∀ d ∈ d0 :: ds, eligKey s d) :
    ∃ acts, updateErcImagesActions b (d0 :: ds) = .settled acts ∧
      acts.length = ds.length + 1 ∧
      acts.countP Action.isDispatch = 1 ∧
      acts.countP (fun a => !(Action.isDispatch a)) = ds.length := by
  obtain ⟨p0, hp0, hk0, he0⟩ := h d0 (List.mem_cons_self d0 ds)
  obtain ⟨a0, hstep, hdisp, _⟩ := updateDiffStep_new_elig b [] d0 p0 hp0 he0 rfl
  have hmem : (([] ++ [serviceKeyOf p0]) : List (Option String)).contains s = true := by
    rw [hk0]
    simp [List.elem_iff]
  have h' : ∀ d ∈ ds, sameService s d := by
    intro d hd
    obtain ⟨p, hp, hk, _⟩ := h d (List.mem_cons_of_mem d0 hd)
    exact ⟨p, hp, hk⟩
  obtain ⟨acts, heq, hlen, hskips⟩ :=
    runDiffsAux_all_mem_skip b s ds h' ([] ++ [serviceKeyOf p0]) ([] ++ [a0]) hmem
  refine ⟨a0 :: acts, ?_, by simp [hlen], ?_, ?_⟩
  · unfold updateErcImagesActions
    simp only [runDiffsAux, hstep, heq]
    simp
  · rw [List.countP_cons]
    have : acts.countP Action.isDispatch = 0 := by
      rw [List.countP_eq_zero]
      intro a ha
      simp [hskips a ha]
    rw [this, hdisp]
    rfl
  · rw [List.countP_cons, hdisp]
    have : acts.countP (fun a => !(Action.isDispatch a)) = acts.length := by
      rw [List.countP_eq_length]
      intro a ha
      simp [hskips a ha]
    rw [this, hlen]
    rfl

/-- C1 witness: three changes under service `api` (a Dockerfile and two JS
files) yield exactly one dispatched action and two skips. -/
theorem C1_dedup_dispatches_once_witness :
    (∀ d ∈ dApiJs :: [dDockerMod, dApiUtilJs], eligKey (some "api") d) ∧
    (∃ acts, updateErcImagesActions "feat" (dApiJs :: [dDockerMod, dApiUtilJs]) =
        .settled acts ∧
      acts.length = [dDockerMod, dApiUtilJs].length + 1 ∧
      acts.countP Action.isDispatch = 1 ∧
      acts.countP (fun a => !(Action.isDispatch a)) = [dDockerMod, dApiUtilJs].length) :=
  ⟨by intro d hd
      fin_cases hd <;> exact ⟨_, rfl, by decide, by decide⟩,
   C1_dedup_dispatches_once "feat" (some "api") dApiJs [dDockerMod, dApiUtilJs] (by
      intro d hd
      fin_cases hd <;> exact ⟨_, rfl, by decide, by decide⟩)⟩

/-- C3: on an update run whose difference records all carry a `beforeBlob`,
every per-service work item settles: the run returns a settlement list with
exactly one outcome per difference, and each outcome is a function of that
item's own action and the external world alone, so one service's
registry-ensure or build failure cannot prevent another service's build. -/
theorem C3_settle_all (w : World) (ctx : BuildCtx) (diffs : List Difference)
    (hbb : ∀ d ∈ diffs, (d.beforeBlobPath).isSome) :
    ∃ acts, updateErcImagesActions ctx.branchName diffs = .settled acts ∧
      acts.length = diffs.length ∧
      updateErcImages w ctx diffs = .ok (acts.map (settleAction w ctx)) ∧
      ∀ i (hi : i < acts.length),
        (acts.map (settleAction w ctx)).get ⟨i, by simpa using hi⟩ =
          settleAction w ctx (acts.get ⟨i, hi⟩) := by
  obtain ⟨hqb', acts, heq, hlen⟩ := runDiffsAux_sound ctx.branchName diffs hbb [] []
  have hact : updateErcImagesActions ctx.branchName diffs = .settled acts := by
    unfold updateErcImagesActions
    rw [heq]
    simp
  refine ⟨acts, hact, hlen, ?_, ?_⟩
  · unfold updateErcImages
    rw [hact]
  · intro i hi
    simp [List.getElem_map]

/-- C3 witness: with service `api`'s registry lookup failing and service
`web`'s registry and build succeeding, both items settle and the run collects
both outcomes. -/
theorem C3_settle_all_witness :
    (∀ d ∈ [dApiJs, dWebJs], (d.beforeBlobPath).isSome) ∧
    (∃ acts, updateErcImagesActions ctxFeat.branchName [dApiJs, dWebJs] = .settled acts ∧
      acts.length = [dApiJs, dWebJs].length ∧
      updateErcImages wWebOnly ctxFeat [dApiJs, dWebJs] =
        .ok (acts.map (settleAction wWebOnly ctxFeat)) ∧
      ∀ i (hi : i < acts.length),
        (acts.map (settleAction wWebOnly ctxFeat)).get ⟨i, by simpa using hi⟩ =
          settleAction wWebOnly ctxFeat (acts.get ⟨i, hi⟩)) :=
  ⟨by decide, C3_settle_all wWebOnly ctxFeat [dApiJs, dWebJs] (by decide)⟩

/-- C9 counterexample to the claim as stated: a valid JS change under `api`
precedes the record without `beforeBlob`, and although the run throws, the
ensure-then-build action for `api` was already initiated by the time the map
threw — so it is false that no build is dispatched for any service. -/
theorem C9_counterexample :
    updateErcImagesActions "feat" [dApiJs, dAdded] =
      .thrown [.ensureAndBuild (some "api") "backend/services/api"] ∧
    Action.isDispatch (.ensureAndBuild (some "api") "backend/services/api") = true ∧
    updateErcImages wTrivial ctxFeat [dApiJs, dAdded] =
      .error "TypeError: cannot destructure beforeBlob of undefined" := by
  refine ⟨by decide, rfl, ?_⟩
  unfold updateErcImages
  rw [(by decide : updateErcImagesActions ctxFeat.branchName [dApiJs, dAdded] =
    .thrown [.ensureAndBuild (some "api") "backend/services/api"])]

/-- C9 amended: a difference record without `beforeBlob` makes the update run
throw while building the action list, so no settlement report is produced;
but the actions for valid records preceding the malformed one are already
initiated when the throw happens (exactly the actions a run over the prefix
alone would settle), and only records from the malformed one onward are
prevented. -/
theorem C9_throw_after_prefix (w : World) (ctx : BuildCtx)
    (pre : List Difference) (dbad : Difference) (post : List Difference)
    (hpre : ∀ d ∈ pre, (d.beforeBlobPath).isSome)
    (hbad : dbad.beforeBlobPath = none) :
    ∃ acts, updateErcImagesActions ctx.branchName (pre ++ dbad :: post) = .thrown acts ∧
      updateErcImagesActions ctx.branchName pre = .settled acts ∧
      updateErcImages w ctx (pre ++ dbad :: post) =
        .error "TypeError: cannot destructure beforeBlob of undefined" := by
  obtain ⟨hqb', acts, heq, _⟩ := runDiffsAux_sound ctx.branchName pre hpre [] []
  have hthrow : runDiffsAux ctx.branchName [] [] (pre ++ dbad :: post) =
      (hqb', [] ++ acts, true) := by
    rw [runDiffsAux_append, heq]
    simp only [runDiffsAux, updateDiffStep, hbad]
  have h1 : updateErcImagesActions ctx.branchName (pre ++ dbad :: post) = .thrown acts := by
    unfold updateErcImagesActions
    rw [hthrow]
    simp
  refine ⟨acts, h1, ?_, ?_⟩
  · unfold updateErcImagesActions
    rw [heq]
    simp
  · unfold updateErcImages
    rw [h1]

/-- C9 amended witness: the concrete two-record diff of the counterexample
instantiates the amended statement. -/
theorem C9_throw_after_prefix_witness :
    (∀ d ∈ [dApiJs], (d.beforeBlobPath).isSome) ∧
    (∃ acts, updateErcImagesActions ctxFeat.branchName ([dApiJs] ++ dAdded :: []) = .thrown acts ∧
      updateErcImagesActions ctxFeat.branchName [dApiJs] = .settled acts ∧
      updateErcImages wTrivial ctxFeat ([dApiJs] ++ dAdded :: []) =
        .error "TypeError: cannot destructure beforeBlob of undefined") :=
  ⟨by decide, C9_throw_after_prefix wTrivial ctxFeat [dApiJs] dAdded [] (by decide) (by decide)⟩

/-- C5 counterexample to the claim as stated: permuting a diff that holds a
deleted Dockerfile and a modified JS file for the same service changes the
performed action — one order deletes the registry, the other order dispatches
an ensure-then-build — so the pipeline downstream of the diff analyzer is not
order-independent. -/
theorem C5_counterexample :
    [dDockerDel, dApiJs].Perm [dApiJs, dDockerDel] ∧
    updateErcImagesActions "feat" [dDockerDel, dApiJs] =
      .settled [.deleteRepo "feat" (some "api"), .skip (some "api") "index"] ∧
    updateErcImagesActions "feat" [dApiJs, dDockerDel] =
      .settled [.ensureAndBuild (some "api") "backend/services/api",
                .skip (some "api") "Dockerfile"] := by
  exact ⟨by decide, by decide, by decide⟩

/-- C5 amended: the set of services that receive a dispatched action is
invariant under permutation of the diff (a service is acted on exactly when
it has at least one trigger-eligible change), but the kind of action a
service receives is taken from its first eligible change in diff order, so it
can differ between permutations. -/
theorem C5_dispatched_services_perm_invariant (b : String)
    (diffs1 diffs2 : List Difference) (hperm : diffs1.Perm diffs2)
    (h1 : ∀ d ∈ diffs1, (d.beforeBlobPath).isSome) :
    ∀ s, s ∈ dispatchedServices (updateErcImagesActions b diffs1) ↔
          s ∈ dispatchedServices (updateErcImagesActions b diffs2) := by
  have h2 : ∀ d ∈ diffs2, (d.beforeBlobPath).isSome :=
    fun d hd => h1 d (hperm.mem_iff.mpr hd)
  intro s
  rw [mem_dispatchedServices b s diffs1 h1, mem_dispatchedServices b s diffs2 h2]
  constructor
  · rintro ⟨d, hd, hk⟩
    exact ⟨d, hperm.mem_iff.mp hd, hk⟩
  · rintro ⟨d, hd, hk⟩
    exact ⟨d, hperm.mem_iff.mpr hd, hk⟩

/-- C5 amended witness: the permuted pair of the counterexample dispatches
for the same set of services. -/
theorem C5_dispatched_services_perm_invariant_witness :
    [dDockerDel, dApiJs].Perm [dApiJs, dDockerDel] ∧
    (∀ d ∈ [dDockerDel, dApiJs], (d.beforeBlobPath).isSome) ∧
    (∀ s, s ∈ dispatchedServices (updateErcImagesActions "feat" [dDockerDel, dApiJs]) ↔
          s ∈ dispatchedServices (updateErcImagesActions "feat" [dApiJs, dDockerDel])) :=
  ⟨by decide, by decide,
   C5_dispatched_services_perm_invariant "feat" [dDockerDel, dApiJs]
     [dApiJs, dDockerDel] (by decide) (by decide)⟩

/-- C2 counterexample to the claim as stated: the registry of service `api`
on the protected branch `main` is deleted when deletion is requested for the
(unprotected) branch name `n`, because the protection tests the requested
branch name only and the unanchored-suffix regex `^prefix.*.n$` matches
`customer-portal-api-main`. -/
theorem C2_counterexample :
    registryName (some "api") "main" = "customer-portal-api-main" ∧
    isProtectedBranch "main" = true ∧
    isProtectedBranch "n" = false ∧
    deleteEcrRepository wProtMain "n" none = [("customer-portal-api-main", true)] := by
  exact ⟨rfl, by decide, by decide, by decide⟩

/-- C2 amended: the protected-branch exclusion keys on the requested branch
name, not on each registry's own branch segment — whenever the requested
branch name matches the protected pattern, no registry is deleted (every
settlement entry is a skip); a registry whose own branch segment is protected
can still be deleted when an unprotected requested branch's pattern matches
its name (see the counterexample). -/
theorem C2_protected_request_never_deletes (w : World) (branchName : String)
    (serviceName : Option String) (hprot : isProtectedBranch branchName = true) :
    ∀ entry ∈ deleteEcrRepository w branchName serviceName, entry.2 = false := by
  intro entry hentry
  unfold deleteEcrRepository at hentry
  obtain ⟨nm, _, hnm⟩ := List.mem_map.mp hentry
  rw [← hnm]
  simp [hprot]

/-- C2 amended witness: requesting deletion for branch `main` itself skips
the `main` registry. -/
theorem C2_protected_request_never_deletes_witness :
    isProtectedBranch "main" = true ∧
    ∀ entry ∈ deleteEcrRepository wProtMain "main" none, entry.2 = false :=
  ⟨by decide, C2_protected_request_never_deletes wProtMain "main" none (by decide)⟩

/-- C4 counterexample to the claim as stated: the shallow path `Dockerfile`
(fewer than three segments) is not filtered out — the resolver yields an
undefined (`none`) service name and the pipeline dispatches an
ensure-then-build for it, targeting the registry
`customer-portal-undefined-feat`. -/
theorem C4_counterexample :
    serviceKeyOf "Dockerfile" = none ∧
    updateErcImagesActions "feat" [dShallowDocker] =
      .settled [.ensureAndBuild none ""] ∧
    Action.isDispatch (.ensureAndBuild none "") = true ∧
    registryName none "feat" = "customer-portal-undefined-feat" := by
  exact ⟨by decide, by decide, rfl, rfl⟩

/-- C4 amended: a changed path shallower than the three-segment convention
never raises (the step always returns a result) and its service name
resolves to `none`; it is silently skipped only when its filename and
extension are outside the allow-lists — an allow-listed shallow file is
dispatched with the undefined service name. -/
theorem C4_shallow_never_raises (b : String) (hqb : List (Option String))
    (d : Difference) (p : String) (hp : d.beforeBlobPath = some p)
    (hshallow : serviceKeyOf p = none) :
    ∃ hqb' a, updateDiffStep b hqb d = .ok (hqb', a) ∧ a.serviceOf = none ∧
      (triggerEligible p = false →
        a = .skip none (pathParse p).name ∧ hqb' = hqb) := by
  by_cases helig : triggerEligible p = true
  · by_cases hmem : hqb.contains (serviceKeyOf p) = true
    · have hstep := updateDiffStep_mem b hqb d p hp hmem
      rw [hshallow] at hstep
      refine ⟨hqb, .skip none (pathParse p).name, hstep, rfl, fun _ => ⟨rfl, rfl⟩⟩
    · have hmemb : hqb.contains (serviceKeyOf p) = false := by
        cases hc : hqb.contains (serviceKeyOf p)
        · rfl
        · exact absurd hc hmem
      obtain ⟨a, hstep, _, hserv⟩ := updateDiffStep_new_elig b hqb d p hp helig hmemb
      refine ⟨hqb ++ [serviceKeyOf p], a, hstep, by rw [hserv, hshallow], ?_⟩
      intro hF
      rw [hF] at helig
      exact Bool.noConfusion helig
  · have hF : triggerEligible p = false := Bool.eq_false_iff.mpr helig
    have hstep := updateDiffStep_inelig b hqb d p hp hF
    rw [hshallow] at hstep
    exact ⟨hqb, .skip none (pathParse p).name, hstep, rfl, fun _ => ⟨rfl, rfl⟩⟩

/-- C4 amended witness: the shallow, non-allow-listed path `README.md` is
skipped without raising. -/
theorem C4_shallow_never_raises_witness :
    dShallowReadme.beforeBlobPath = some "README.md" ∧
    serviceKeyOf "README.md" = none ∧
    (∃ hqb' a, updateDiffStep "feat" [] dShallowReadme = .ok (hqb', a) ∧
      a.serviceOf = none ∧
      (triggerEligible "README.md" = false →
        a = .skip none (pathParse "README.md").name ∧ hqb' = [])) :=
  ⟨rfl, by decide,
   C4_shallow_never_raises "feat" [] dShallowReadme "README.md" rfl (by decide)⟩

/-- C6 counterexample to the claim as stated: when the registry lookup fails
for a reason other than not-found, `checkEcrRepository` does not propagate
any error — it logs and returns an absent reference (`undefined`). -/
theorem C6_counterexample :
    wLookupFail.describeRepo "customer-portal-api-feat" =
      .error (.other "AccessDenied") ∧
    checkEcrRepository wLookupFail "customer-portal-api-feat" = none := ⟨rfl, rfl⟩

/-- C6 amended: `ensure` returns the existing reference on a successful
lookup and creates on not-found; on any other lookup error, or on a failed
create after not-found, it swallows the error and returns no reference —
exactly the behaviour of `ensureAmended`, which has no error channel at
all. -/
theorem C6_lookup_error_swallowed (w : World) (nm : String) :
    checkEcrRepository w nm = ensureAmended (w.describeRepo nm) (w.createRepo nm) := by
  unfold checkEcrRepository ensureAmended
  cases w.describeRepo nm with
  | ok r => rfl
  | error e =>
    cases e with
    | notFound =>
      cases w.createRepo nm with
      | ok r => rfl
      | error m => rfl
    | other m => rfl

/-- When the awaited commit-log lookup of the update path rejects, the whole
update promise rejects with that reason. -/
theorem updateErcImagesFull_log_error (w : World) (ctx : BuildCtx) (m : String)
    (hlog : w.getCommitLog ctx.commitHash = .error m) :
    updateErcImagesFull w ctx = .error m := by
  unfold updateErcImagesFull
  rw [hlog]

/-- C7 counterexample to the claim as stated: a malformed payload (no record
at all) makes the synchronous destructuring throw inside the handler's
try/catch, which logs the error and resolves with no value — the invocation
reports success instead of surfacing the failure. -/
theorem C7_counterexample :
    parseEvent emptyEvent = .error "TypeError: cannot destructure Records" ∧
    handler wTrivial emptyEvent = .resolvedUndefined := ⟨rfl, rfl⟩

/-- C7 amended: a synchronous top-level error (malformed payload) is caught
and swallowed, the invocation resolving successfully with no value; an error
arising from the returned pipeline promise — such as a version-control
commit-log failure on the update path — is outside the catch's synchronous
extent and does surface as the invocation's failure. -/
theorem C7_sync_swallowed_async_surfaced (w : World) (e : Event) :
    (∀ m, parseEvent e = .error m → handler w e = .resolvedUndefined) ∧
    (∀ p m, parseEvent e = .ok p → p.deleted = false → p.created = false →
      w.getCommitLog p.commitHash = .error m →
      handler w e = .update (.error m)) := by
  constructor
  · intro m hm
    unfold handler
    rw [hm]
  · intro p m hp hdel hcre hlog
    unfold handler
    rw [hp]
    simp only [hdel, hcre, Bool.false_eq_true, if_false]
    exact congrArg HandlerResult.update
      (updateErcImagesFull_log_error w (handlerCtx p) m hlog)

/-- C7 amended witness: the no-record event resolves with no value, while an
update event over a world whose commit-log lookup fails surfaces that
failure. -/
theorem C7_sync_swallowed_async_surfaced_witness :
    handler wTrivial emptyEvent = .resolvedUndefined ∧
    handler wLogFail updEvent = .update (.error "SourceUnavailable") := by
  constructor
  · exact (C7_sync_swallowed_async_surfaced wTrivial emptyEvent).1
      "TypeError: cannot destructure Records" rfl
  · exact (C7_sync_swallowed_async_surfaced wLogFail updEvent).2
      ⟨"us-east-1", "my-repo", some "123456789012", "feat", .strVal "c0ffee",
        false, false⟩
      "SourceUnavailable" (by decide) rfl rfl rfl

/-- C8: on a branch-created event where services `api` and `web` exist under
the services root and their registry creations and build submissions succeed,
exactly two registries are created and exactly two builds are dispatched, one
per service, each with `BRANCH_NAME` equal to the event's branch. -/
theorem C8_branch_created_two_builds (w : World) (ctx : BuildCtx)
    (rApi rWeb : Repository)
    (hfolder : w.getFolder = .ok [("api", "backend/services/api"),
      ("web", "backend/services/web")])
    (hca : w.createRepo (SERVICE_PFX ++ "-" ++ "api" ++ "-" ++ ctx.branchName) = .ok rApi)
    (hcw : w.createRepo (SERVICE_PFX ++ "-" ++ "web" ++ "-" ++ ctx.branchName) = .ok rWeb)
    (hba : w.startBuild rApi.repositoryName = .ok ())
    (hbw : w.startBuild rWeb.repositoryName = .ok ()) :
    createServiceRepositories w ctx =
      .ok [.created (.ok (mkBuildOptions ctx rApi (some "api") "backend/services/api")),
           .created (.ok (mkBuildOptions ctx rWeb (some "web") "backend/services/web"))] ∧
    envValue (mkBuildOptions ctx rApi (some "api") "backend/services/api")
      "BRANCH_NAME" = some (.str ctx.branchName) ∧
    envValue (mkBuildOptions ctx rWeb (some "web") "backend/services/web")
      "BRANCH_NAME" = some (.str ctx.branchName) ∧
    envValue (mkBuildOptions ctx rApi (some "api") "backend/services/api")
      "SERVICE_NAME" = some (.str "api") ∧
    envValue (mkBuildOptions ctx rWeb (some "web") "backend/services/web")
      "SERVICE_NAME" = some (.str "web") := by
  refine ⟨?_, rfl, rfl, rfl, rfl⟩
  unfold createServiceRepositories
  rw [hfolder]
  simp [buildImage, hca, hcw, hba, hbw]

/-- C8 witness: the scenario instantiated at branch `feat` with a world where
both creations and submissions succeed. -/
theorem C8_branch_created_two_builds_witness :
    createServiceRepositories wCreate8 ctxFeat =
      .ok [.created (.ok (mkBuildOptions ctxFeat repoApi8 (some "api")
              "backend/services/api")),
           .created (.ok (mkBuildOptions ctxFeat repoWeb8 (some "web")
              "backend/services/web"))] ∧
    envValue (mkBuildOptions ctxFeat repoApi8 (some "api") "backend/services/api")
      "BRANCH_NAME" = some (.str ctxFeat.branchName) ∧
    envValue (mkBuildOptions ctxFeat repoWeb8 (some "web") "backend/services/web")
      "BRANCH_NAME" = some (.str ctxFeat.branchName) ∧
    envValue (mkBuildOptions ctxFeat repoApi8 (some "api") "backend/services/api")
      "SERVICE_NAME" = some (.str "api") ∧
    envValue (mkBuildOptions ctxFeat repoWeb8 (some "web") "backend/services/web")
      "SERVICE_NAME" = some (.str "web") :=
  C8_branch_created_two_builds wCreate8 ctxFeat repoApi8 repoWeb8
    rfl rfl rfl rfl rfl

/-- C10: for an event record whose reference block lacks a commit id, the
`commitHash` value is the unawaited branch-head lookup promise, never a
resolved commit id string; that promise value is what is used as the build's
`sourceVersion` and as the after-commit specifier of the commit-log and diff
lookups (a world answering only that specifier succeeds). -/
theorem C10_commit_specifier_is_unawaited_promise (e : Event) (r : CCRecord)
    (rs : List CCRecord) (rf : CCReference) (rfs : List CCReference)
    (hr : e.records = r :: rs) (hrf : r.references = rf :: rfs)
    (hnc : rf.commit = none) (hdel : rf.deleted = false)
    (hcre : rf.created = false) :
    ∃ p, parseEvent e = .ok p ∧
      p.commitHash = .promiseVal p.gitRepoName p.branchName ∧
      (∀ s, p.commitHash ≠ .strVal s) ∧
      (∀ repo sn sd, (mkBuildOptions (handlerCtx p) repo sn sd).sourceVersion =
        .promiseVal p.gitRepoName p.branchName) ∧
      handler (probeWorld (.promiseVal p.gitRepoName p.branchName)) e =
        .update (.ok []) := by
  have hparse : parseEvent e =
      .ok ⟨r.awsRegion, (splitStr ':' r.eventSourceARN).getLastD "",
        (splitStr ':' r.eventSourceARN).get? 4, pathBasename rf.ref,
        .promiseVal ((splitStr ':' r.eventSourceARN).getLastD "")
          (pathBasename rf.ref), rf.deleted, rf.created⟩ := by
    unfold parseEvent
    simp [hr, hrf, hnc, jsTruthy]
  refine ⟨_, hparse, rfl, fun s h => CommitSpec.noConfusion h, fun repo sn sd => rfl, ?_⟩
  unfold handler
  rw [hparse]
  simp only [hdel, hcre, Bool.false_eq_true, if_false]
  unfold updateErcImagesFull probeWorld handlerCtx
  simp [updateErcImages, updateErcImagesActions, runDiffsAux]

/-- C10 witness: the concrete update event without a commit id. -/
theorem C10_commit_specifier_is_unawaited_promise_witness :
    (∃ p, parseEvent updEventNoCommit = .ok p ∧
      p.commitHash = .promiseVal p.gitRepoName p.branchName ∧
      (∀ s, p.commitHash ≠ .strVal s) ∧
      (∀ repo sn sd, (mkBuildOptions (handlerCtx p) repo sn sd).sourceVersion =
        .promiseVal p.gitRepoName p.branchName) ∧
      handler (probeWorld (.promiseVal p.gitRepoName p.branchName)) updEventNoCommit =
        .update (.ok [])) :=
  C10_commit_specifier_is_unawaited_promise updEventNoCommit
    ⟨"us-east-1", [⟨none, "refs/heads/feat", false, false⟩],
      "arn:aws:codecommit:us-east-1:123456789012:my-repo"⟩ []
    ⟨none, "refs/heads/feat", false, false⟩ [] rfl rfl rfl rfl rfl

end CCTrigger
